import Mathlib

/-!
Verification development for the AutoOrtho tile cache (src/autoortho.py).

The Python source is shallowly embedded below.  Conventions:
* machine floats measuring wall-clock time are modelled as rationals;
* `os.path.exists` and membership in `getortho`'s `active_tiles` are modelled
  as boolean-valued snapshot functions on file-path strings (one call of a
  cache operation runs against a fixed snapshot; the waits of `get_deadline`
  additionally observe a trace of condition-variable wake-ups);
* Python exceptions are modelled with `Except`; in particular CPython's
  `threading.Condition.wait` raises `RuntimeError` when called without the
  condition's lock held, which `TileCacher.get_quick` does on its miss path
  (the `with self.go.tile_condition:` block of the zoom walk is closed before
  the `while cache_file in self.go.active_tiles: ... wait()` loop runs).
-/

/-- The artifact path `<row>_<col>_<maptype>_<zoom>.dds` built by
`os.path.join(self.cache_dir, f"...")` throughout `TileCacher` (the
`cache_dir` prefix is common to every path and is dropped). -/
def cache_file_name (row col : Int) (map_type : String) (z : Int) : String :=
  toString row ++ "_" ++ toString col ++ "_" ++ map_type ++ "_" ++ toString z ++ ".dds"

/-- Snapshot of the world a cache operation runs against: `fs p` models
`os.path.exists(p)` and `active p` models `p in self.go.active_tiles`. -/
structure Env where
  fs : String → Bool
  active : String → Bool

/-- The cache-owned mutable attributes of `TileCacher`:
`tile_times = collections.deque(maxlen=5)` and `target_zoom = 16`. -/
structure CtrlState where
  tile_times : List ℚ
  target_zoom : Int
deriving DecidableEq

/-- `TileCacher` class attributes: the deque starts empty, `target_zoom = 16`. -/
def initCtrl : CtrlState := ⟨[], 16⟩

/-- The one exception a cache operation can raise in this embedding:
CPython's `RuntimeError("cannot wait on un-acquired lock")` from
`Condition.wait()` without the lock. -/
inductive CacheErr where
  | unacquiredLockWait
deriving DecidableEq

instance [DecidableEq ε] [DecidableEq α] : DecidableEq (Except ε α) := fun x y =>
  match x, y with
  | .ok a, .ok b =>
    if h : a = b then .isTrue (congrArg Except.ok h)
    else .isFalse (fun hh => h (Except.ok.inj hh))
  | .error a, .error b =>
    if h : a = b then .isTrue (congrArg Except.error h)
    else .isFalse (fun hh => h (Except.error.inj hh))
  | .ok _, .error _ => .isFalse (fun hh => Except.noConfusion hh)
  | .error _, .ok _ => .isFalse (fun hh => Except.noConfusion hh)

/-- One invocation of `getortho.GetOrtho.get_quick_tile(col, row, zoom,
min_zoom, maptype, outfile, priority)`. -/
structure RendererCall where
  col : Int
  row : Int
  zoom : Int
  min_zoom : Int
  map_type : String
  outfile : String
  priority : Int
deriving DecidableEq

/-- Result of `TileCacher.get_quick`: the returned path (or the propagated
exception), the updated controller state, the `get_quick_tile` calls made,
and whether the fetch-emission (cache-miss) path ran to completion. -/
structure QuickOut where
  result : Except CacheErr String
  ctrl : CtrlState
  calls : List RendererCall
  emittedFetch : Bool
deriving DecidableEq

/-- `self.tile_times.append(t)` on a `deque(maxlen=5)`: append, keep the last
five entries (oldest evicted first). -/
def dequeAppend5 (xs : List ℚ) (t : ℚ) : List ℚ :=
  let ys := xs ++ [t]
  ys.drop (ys.length - 5)

/-- The adaptive-zoom controller inlined at the end of `get_quick`'s miss
path (src lines 234-245): append the new tile time, compute
`avg_time = sum(self.tile_times)/5`, then
`if avg_time > 2: if self.target_zoom >= 12: self.target_zoom -= 1`
`elif avg_time <= 0.3: if self.target_zoom < 18: self.target_zoom += 1`. -/
def zoom_controller (ctrl : CtrlState) (t : ℚ) : CtrlState :=
  let times := dequeAppend5 ctrl.tile_times t
  let avg := times.sum / 5
  if 2 < avg then
    ⟨times, if 12 ≤ ctrl.target_zoom then ctrl.target_zoom - 1 else ctrl.target_zoom⟩
  else if avg ≤ 3 / 10 then
    ⟨times, if ctrl.target_zoom < 18 then ctrl.target_zoom + 1 else ctrl.target_zoom⟩
  else
    ⟨times, ctrl.target_zoom⟩

/-- The zoom walk of `get_quick` (src lines 199-213):
`for z in range(zoom, min_zoom-1, -1)`, taking `n` iterations starting at
`z`; a level whose path is in the active set is skipped (`continue`), an
existing artifact is a hit (`break`). -/
def zoom_walk (env : Env) (row col : Int) (map_type : String) : Int → Nat → Option String
  | _, 0 => none
  | z, n + 1 =>
    let cf := cache_file_name row col map_type z
    if env.active cf then zoom_walk env row col map_type (z - 1) n
    else if env.fs cf then some cf
    else zoom_walk env row col map_type (z - 1) n

/-- `TileCacher.get_quick(row, col, map_type, zoom, min_zoom=0, priority=1)`
(src lines 193-248).  `t` is the wall time the renderer call takes.  On a
miss whose `min_zoom` path is active, the source enters
`while cache_file in self.go.active_tiles: self.go.tile_condition.wait()`
with the condition's lock no longer held, so the wait raises. -/
def get_quick (env : Env) (ctrl : CtrlState) (row col : Int) (map_type : String)
    (zoom min_zoom0 priority : Int) (t : ℚ) : QuickOut :=
  let mz := if min_zoom0 = 0 then zoom - 3 else min_zoom0
  match zoom_walk env row col map_type zoom (zoom + 1 - mz).toNat with
  | some cf => ⟨.ok cf, ctrl, [], false⟩
  | none =>
    let cf := cache_file_name row col map_type mz
    if env.active cf then ⟨.error .unacquiredLockWait, ctrl, [], false⟩
    else ⟨.ok cf, zoom_controller ctrl t, [⟨col, row, zoom, mz, map_type, cf, priority⟩], true⟩

/-- `TileCacher.get_target(row, col, map_type, zoom)` (src lines 250-255):
`min_zoom = min(zoom, max(zoom-2, self.target_zoom))`, then `get_quick`. -/
def get_target (env : Env) (ctrl : CtrlState) (row col : Int) (map_type : String)
    (zoom : Int) (t : ℚ) : QuickOut :=
  get_quick env ctrl row col map_type zoom
    (min zoom (max (zoom - 2) ctrl.target_zoom)) 1 t

/-- Result of `TileCacher.get_background`: whether
`get_background_tile` was invoked. -/
structure BgOut where
  enqueued : Bool
deriving DecidableEq

/-- `TileCacher.get_background(row, col, map_type, zoom)` (src lines
257-268): return if the artifact exists, otherwise hand the key to
`get_background_tile` and return immediately (no waiting). -/
def get_background (env : Env) (row col : Int) (map_type : String) (zoom : Int) : BgOut :=
  let cf := cache_file_name row col map_type zoom
  if env.fs cf then ⟨false⟩ else ⟨true⟩

/-- Result of `TileCacher.get_best`: the returned path (or propagated
exception from a nested `get_quick`), controller state, whether the blocking
`get_tile` ran, and whether an exception it raised was caught and logged. -/
structure BestOut where
  result : Except CacheErr String
  ctrl : CtrlState
  emittedFetch : Bool
  calledGetTile : Bool
  swallowedError : Bool
deriving DecidableEq

/-- `TileCacher.get_best(row, col, map_type, zoom)` (src lines 270-284).
`rendererFails` says whether the external `get_tile` raises; the source
wraps it in `try/except` and returns the expected path either way. -/
def get_best (env : Env) (ctrl : CtrlState) (row col : Int) (map_type : String)
    (zoom : Int) (rendererFails : Bool) (t : ℚ) : BestOut :=
  let cf := cache_file_name row col map_type zoom
  if env.fs cf then ⟨.ok cf, ctrl, false, false, false⟩
  else if env.active cf then
    let q := get_quick env ctrl row col map_type zoom (zoom - 2) 1 t
    ⟨q.result, q.ctrl, q.emittedFetch, false, false⟩
  else ⟨.ok cf, ctrl, false, true, rendererFails⟩

/-- One wake-up of the `get_deadline` wait loop: the wall time the
`tile_condition.wait(deadline)` call took, and the values of
`cache_file in active_tiles` / `os.path.exists(cache_file)` observed after
it returns. -/
structure WaitStep where
  dur : ℚ
  activeAfter : Bool
  existsAfter : Bool
deriving DecidableEq

/-- Observable outcome of `get_deadline`'s wait loop: `reached` is the
source's `deadline_reached` flag, `existsAtExit` the final
`os.path.exists(cache_file)`, `waits` the durations of the executed waits
and `timeouts` the timeout argument passed to each `wait` call. -/
structure LoopOut where
  reached : Bool
  existsAtExit : Bool
  waits : List ℚ
  timeouts : List ℚ
deriving DecidableEq

/-- The wait loop of `get_deadline` (src lines 301-310):
`while cache_file in active or not exists: wait(deadline);`
`if time.time() - start_time > deadline: deadline_reached = True; break`.
Returns `none` when the wake-up trace runs out with the loop still
spinning (the call has not returned yet). -/
def deadline_loop (dl : ℚ) : List WaitStep → ℚ → Bool → Bool → Option LoopOut
  | [], _, act, exi =>
    if act = false ∧ exi = true then some ⟨false, true, [], []⟩ else none
  | w :: rest, elapsed, act, exi =>
    if act = false ∧ exi = true then some ⟨false, true, [], []⟩
    else
      if dl < elapsed + w.dur then some ⟨true, w.existsAfter, [w.dur], [dl]⟩
      else
        match deadline_loop dl rest (elapsed + w.dur) w.activeAfter w.existsAfter with
        | none => none
        | some lo => some ⟨lo.reached, lo.existsAtExit, w.dur :: lo.waits, dl :: lo.timeouts⟩

/-- Observable outcome of `TileCacher.get_deadline`. -/
structure DeadlineOut where
  result : Except CacheErr String
  ctrl : CtrlState
  bgEnqueued : Bool
  reached : Bool
  existsAtExit : Bool
  waits : List ℚ
  timeouts : List ℚ
  fellThrough : Bool
  quickFetch : Bool
deriving DecidableEq

/-- `TileCacher.get_deadline(row, col, map_type, zoom, quick_zoom=0,
min_zoom=0, deadline=0.25, priority=5)` (src lines 286-324).  `env` is the
snapshot at entry, `trace` the wait-loop wake-ups, `env2` the snapshot the
fall-through `get_quick` runs against and `t` its renderer wall time.
Returns `none` when the wait loop has not exited within `trace`. -/
def get_deadline (env : Env) (ctrl : CtrlState) (row col : Int) (map_type : String)
    (zoom quick_zoom min_zoom0 : Int) (dl : ℚ) (priority : Int)
    (trace : List WaitStep) (env2 : Env) (t : ℚ) : Option DeadlineOut :=
  let cf := if quick_zoom = 0 then cache_file_name row col map_type zoom
            else cache_file_name row col map_type quick_zoom
  if env.fs cf then
    some ⟨.ok cf, ctrl, false, false, true, [], [], false, false⟩
  else
    match deadline_loop dl trace 0 (env.active cf) (env.fs cf) with
    | none => none
    | some lo =>
      if lo.existsAtExit = true ∧ lo.reached = false then
        some ⟨.ok cf, ctrl, true, lo.reached, lo.existsAtExit, lo.waits, lo.timeouts,
          false, false⟩
      else
        let mz := if min_zoom0 = 0 then zoom - 3 else min_zoom0
        let q := get_quick env2 ctrl row col map_type zoom mz 1 t
        some ⟨q.result, q.ctrl, true, lo.reached, lo.existsAtExit, lo.waits, lo.timeouts,
          true, q.emittedFetch⟩

/-- One invocation of a `TileCacher` operation together with the
environment (filesystem/active-set snapshots, renderer wall times,
wait-loop wake-ups) it runs against. -/
inductive CacheCall where
  | quick (env : Env) (row col : Int) (map_type : String) (zoom min_zoom0 priority : Int) (t : ℚ)
  | target (env : Env) (row col : Int) (map_type : String) (zoom : Int) (t : ℚ)
  | background (env : Env) (row col : Int) (map_type : String) (zoom : Int)
  | best (env : Env) (row col : Int) (map_type : String) (zoom : Int) (rendererFails : Bool) (t : ℚ)
  | deadline (env : Env) (row col : Int) (map_type : String)
      (zoom quick_zoom min_zoom0 : Int) (dl : ℚ) (priority : Int)
      (trace : List WaitStep) (env2 : Env) (t : ℚ)

/-- Effect of one `TileCacher` call on the cache-owned controller state;
the boolean reports whether a `get_quick` fetch emission completed inside
the call.  A `get_deadline` whose wait loop has not exited leaves the
state as it stands. -/
def stepCall : CacheCall → CtrlState → CtrlState × Bool
  | .quick env row col mt zoom mz0 prio t, ctrl =>
    let r := get_quick env ctrl row col mt zoom mz0 prio t
    (r.ctrl, r.emittedFetch)
  | .target env row col mt zoom t, ctrl =>
    let r := get_target env ctrl row col mt zoom t
    (r.ctrl, r.emittedFetch)
  | .background _ _ _ _ _, ctrl => (ctrl, false)
  | .best env row col mt zoom rf t, ctrl =>
    let r := get_best env ctrl row col mt zoom rf t
    (r.ctrl, r.emittedFetch)
  | .deadline env row col mt zoom qz mz0 dl prio trace env2 t, ctrl =>
    match get_deadline env ctrl row col mt zoom qz mz0 dl prio trace env2 t with
    | none => (ctrl, false)
    | some r => (r.ctrl, r.quickFetch)

/-- Run a sequence of `TileCacher` calls, threading the controller state. -/
def runCalls : List CacheCall → CtrlState → CtrlState
  | [], c => c
  | op :: rest, c => runCalls rest (stepCall op c).1

/-- Per-key state for the background-enqueue model: is the artifact on
disk, is the key in the Active Set, and how many units of background work
have been enqueued for it. -/
structure BgKeyState where
  present : Bool
  active : Bool
  enqueues : Nat
deriving DecidableEq

/-- Modelled from the spec: `getortho.GetOrtho.get_background_tile` is not
under src/.  Spec §6 declares it a non-blocking enqueue, and spec §3/§8
make Active Set membership the single-flight barrier maintained by the
renderer ("at most one renderer call for K is in flight"), so an enqueue
for a key that is already active is a no-op, and a fresh enqueue puts the
key in flight. -/
def get_background_tile (st : BgKeyState) : BgKeyState :=
  if st.active then st else ⟨st.present, true, st.enqueues + 1⟩

/-- `TileCacher.get_background` for one key over the per-key state: return
when the artifact exists (src line 264), otherwise call the renderer's
background enqueue (src line 268). -/
def getBackgroundK (st : BgKeyState) : BgKeyState :=
  if st.present then st else get_background_tile st

/-- A tile key as parsed from a path by the regex
`.*/(\d+)[-_](\d+)[-_](\D*)(\d+).dds` (`AutoOrtho.dds_re`), after the
`int()` conversions. -/
structure DdsKey where
  row : Int
  col : Int
  maptype : String
  zoom : Int
deriving DecidableEq

/-- `AutoOrtho._full_path(partial)`: strip a leading slash and join onto
the root. -/
def full_path (root partial0 : String) : String :=
  root ++ "/" ++ (if partial0.startsWith "/" then partial0.drop 1 else partial0)

/-- Outcome of the DDS routing in `AutoOrtho.getattr`: which path gets
`lstat`ed, the updated `path_dict`, and whether the policy engine
(`_fetch_dds`, hence the tile cache) was consulted. -/
structure AttrResult where
  target : String
  path_dict : List (String × String)
  policyCalled : Bool
deriving DecidableEq

/-- The DDS branch of `AutoOrtho.getattr` (src lines 377-409).  `parse` is
the `dds_re` match result; `art` stands for the artifact path
`_fetch_dds` resolves when it is invoked.  For `maptype != "ZL"` the
resolved path is recorded in `path_dict` and `lstat`ed; otherwise the path
is a passthrough (`full_path`) and `path_dict` is untouched. -/
def getattr_dds (pd : List (String × String)) (root path : String)
    (parse : Option DdsKey) (art : String) : AttrResult :=
  match parse with
  | some k =>
    if k.maptype ≠ "ZL" then ⟨art, (path, art) :: pd, true⟩
    else ⟨full_path root path, pd, false⟩
  | none => ⟨full_path root path, pd, false⟩

/-- Outcome of the DDS branch of `AutoOrtho.open`: the path that gets
`os.open`ed (or the exception propagated out of `get_quick`), the updated
`path_dict`, and whether `cache.get_quick` was invoked. -/
structure OpenResult where
  target : Except CacheErr String
  path_dict : List (String × String)
  quickCalled : Bool
deriving DecidableEq

/-- The DDS branch of `AutoOrtho.open` (src lines 591-604): look the path
up in `path_dict`; on a miss, fall back to `cache.get_quick` with the
parsed key — with no check of `maptype` — and record the result. -/
def open_dds (env : Env) (ctrl : CtrlState) (pd : List (String × String))
    (root path : String) (parse : Option DdsKey) (t : ℚ) : OpenResult :=
  match parse with
  | none => ⟨.ok (full_path root path), pd, false⟩
  | some k =>
    match List.lookup path pd with
    | some cf => ⟨.ok cf, pd, false⟩
    | none =>
      let q := get_quick env ctrl k.row k.col k.maptype k.zoom 0 1 t
      match q.result with
      | .ok cf => ⟨.ok cf, (path, cf) :: pd, true⟩
      | .error e => ⟨.error e, pd, true⟩

/-- The error raised by `range(n)[::0]` when `DSF.open` computes
`chunk_size = int(num_dds/num_chunks) = 0`. -/
inductive DsfErr where
  | sliceStepZero
deriving DecidableEq

/-- `[dds_list[i:i+cs] for i in range(len(dds_list))[::cs]]` for a step
`cs ≥ 1`, with the list's length as fuel. -/
def chunksOfAux (cs : Nat) : Nat → List α → List (List α)
  | 0, _ => []
  | _ + 1, [] => []
  | fuel + 1, a :: l => (a :: l).take cs :: chunksOfAux cs fuel ((a :: l).drop cs)

/-- The chunking of `DSF.open` (src lines 128-132): `num_chunks = 8`,
`chunk_size = int(num_dds/num_chunks)`, then slice with step `chunk_size`;
a zero step is a Python `ValueError`. -/
def dsfChunked (l : List α) : Except DsfErr (List (List α)) :=
  let cs := l.length / 8
  if cs = 0 then .error .sliceStepZero else .ok (chunksOfAux cs l.length l)

/-- One DDS path handed to a `DSF.get_dds` worker: the `dds_re` parse
result, whether the file already exists, and its size if so (a freshly
`touch`ed placeholder has size 0). -/
structure DdsEntry where
  key : Option DdsKey
  preExists : Bool
  preSize : Nat
deriving DecidableEq

/-- Arguments of one `cache.get_quick` call issued by a worker. -/
structure QuickReq where
  row : Int
  col : Int
  maptype : String
  zoom : Int
  priority : Int
deriving DecidableEq

/-- The per-file body of `DSF.get_dds` (src lines 154-178): skip unmatched
names; `touch` a missing file (size 0); if the size is 0, call
`get_quick` — with `priority=0` when `extra_fast` and the default
`priority=1` otherwise. -/
def ddsEntryReq (extra_fast : Bool) (e : DdsEntry) : Option QuickReq :=
  match e.key with
  | none => none
  | some k =>
    let size := if e.preExists then e.preSize else 0
    if size = 0 then
      some ⟨k.row, k.col, k.maptype, k.zoom, if extra_fast then 0 else 1⟩
    else none

/-- All `get_quick` calls one worker issues for its chunk. -/
def workerReqs (extra_fast : Bool) (entries : List DdsEntry) : List QuickReq :=
  entries.filterMap (ddsEntryReq extra_fast)

/-- `DSF.open` dispatches one worker per chunk (src lines 137-142). -/
def dsfDispatch (extra_fast : Bool) (chunks : List (List DdsEntry)) : List (List QuickReq) :=
  chunks.map (workerReqs extra_fast)

/-- An environment in which nothing is cached and nothing is active. -/
def envIdle : Env := ⟨fun _ => false, fun _ => false⟩

/-- An environment in which every artifact exists and nothing is active. -/
def envHit : Env := ⟨fun _ => true, fun _ => false⟩

/-- An environment in which nothing is cached and every tile is being
actively worked on. -/
def envBusy : Env := ⟨fun _ => false, fun _ => true⟩

/-! ## Helper lemmas about the zoom walk and the controller -/

theorem zoom_walk_none (env : Env) (row col : Int) (mt : String) :
    ∀ (n : Nat) (z : Int), zoom_walk env row col mt z n = none →
    ∀ j : Nat, j < n →
      env.active (cache_file_name row col mt (z - (j : Int))) = true ∨
      env.fs (cache_file_name row col mt (z - (j : Int))) = false := by
  intro n
  induction n with
  | zero => intro z _ j hj; omega
  | succ n ih =>
    intro z h j hj
    simp only [zoom_walk] at h
    by_cases ha : env.active (cache_file_name row col mt z)
    · rw [if_pos ha] at h
      match j with
      | 0 => exact Or.inl (by simpa using ha)
      | j + 1 =>
        have hz : z - 1 - (j : Int) = z - ((j + 1 : Nat) : Int) := by push_cast; ring
        have := ih (z - 1) h j (by omega)
        rwa [hz] at this
    · rw [if_neg ha] at h
      by_cases hf : env.fs (cache_file_name row col mt z)
      · rw [if_pos hf] at h; exact absurd h (by simp)
      · rw [if_neg hf] at h
        match j with
        | 0 => exact Or.inr (by simpa using hf)
        | j + 1 =>
          have hz : z - 1 - (j : Int) = z - ((j + 1 : Nat) : Int) := by push_cast; ring
          have := ih (z - 1) h j (by omega)
          rwa [hz] at this

theorem zoom_walk_some (env : Env) (row col : Int) (mt : String) :
    ∀ (n : Nat) (z : Int) (cf : String), zoom_walk env row col mt z n = some cf →
    ∃ k : Nat, k < n ∧ cf = cache_file_name row col mt (z - (k : Int)) ∧
      env.active (cache_file_name row col mt (z - (k : Int))) = false ∧
      env.fs (cache_file_name row col mt (z - (k : Int))) = true ∧
      ∀ j : Nat, j < k →
        env.active (cache_file_name row col mt (z - (j : Int))) = true ∨
        env.fs (cache_file_name row col mt (z - (j : Int))) = false := by
  intro n
  induction n with
  | zero => intro z cf h; simp [zoom_walk] at h
  | succ n ih =>
    intro z cf h
    simp only [zoom_walk] at h
    by_cases ha : env.active (cache_file_name row col mt z)
    · rw [if_pos ha] at h
      obtain ⟨k, hk, hcf, hact, hfs, hskip⟩ := ih (z - 1) cf h
      refine ⟨k + 1, by omega, ?_, ?_, ?_, ?_⟩
      · have hz : z - 1 - (k : Int) = z - ((k + 1 : Nat) : Int) := by push_cast; ring
        rwa [hz] at hcf
      · have hz : z - 1 - (k : Int) = z - ((k + 1 : Nat) : Int) := by push_cast; ring
        rwa [hz] at hact
      · have hz : z - 1 - (k : Int) = z - ((k + 1 : Nat) : Int) := by push_cast; ring
        rwa [hz] at hfs
      · intro j hj
        match j with
        | 0 => exact Or.inl (by simpa using ha)
        | j + 1 =>
          have hz : z - 1 - (j : Int) = z - ((j + 1 : Nat) : Int) := by push_cast; ring
          have := hskip j (by omega)
          rwa [hz] at this
    · rw [if_neg ha] at h
      by_cases hf : env.fs (cache_file_name row col mt z)
      · rw [if_pos hf] at h
        refine ⟨0, by omega, ?_, ?_, ?_, ?_⟩
        · simpa using h.symm
        · simpa using (by simpa using ha : env.active (cache_file_name row col mt z) = false)
        · simpa using hf
        · intro j hj; omega
      · rw [if_neg hf] at h
        obtain ⟨k, hk, hcf, hact, hfs, hskip⟩ := ih (z - 1) cf h
        refine ⟨k + 1, by omega, ?_, ?_, ?_, ?_⟩
        · have hz : z - 1 - (k : Int) = z - ((k + 1 : Nat) : Int) := by push_cast; ring
          rwa [hz] at hcf
        · have hz : z - 1 - (k : Int) = z - ((k + 1 : Nat) : Int) := by push_cast; ring
          rwa [hz] at hact
        · have hz : z - 1 - (k : Int) = z - ((k + 1 : Nat) : Int) := by push_cast; ring
          rwa [hz] at hfs
        · intro j hj
          match j with
          | 0 => exact Or.inr (by simpa using hf)
          | j + 1 =>
            have hz : z - 1 - (j : Int) = z - ((j + 1 : Nat) : Int) := by push_cast; ring
            have := hskip j (by omega)
            rwa [hz] at this

theorem get_quick_cases (env : Env) (ctrl : CtrlState) (row col : Int) (mt : String)
    (zoom mz0 prio : Int) (t : ℚ) :
    ((get_quick env ctrl row col mt zoom mz0 prio t).emittedFetch = false ∧
      (get_quick env ctrl row col mt zoom mz0 prio t).ctrl = ctrl) ∨
    ((get_quick env ctrl row col mt zoom mz0 prio t).emittedFetch = true ∧
      (get_quick env ctrl row col mt zoom mz0 prio t).ctrl = zoom_controller ctrl t) := by
  simp only [get_quick]
  rcases hw : zoom_walk env row col mt zoom
      (zoom + 1 - (if mz0 = 0 then zoom - 3 else mz0)).toNat with _ | cf
  · simp only [hw]
    split <;> split <;>
      first
        | exact Or.inl ⟨rfl, rfl⟩
        | exact Or.inr ⟨rfl, rfl⟩
  · simp only [hw]
    simp

theorem get_quick_fetch_ctrl (env : Env) (ctrl : CtrlState) (row col : Int) (mt : String)
    (zoom mz0 prio : Int) (t : ℚ)
    (h : (get_quick env ctrl row col mt zoom mz0 prio t).emittedFetch = true) :
    (get_quick env ctrl row col mt zoom mz0 prio t).ctrl = zoom_controller ctrl t := by
  rcases get_quick_cases env ctrl row col mt zoom mz0 prio t with ⟨h1, _⟩ | ⟨_, h2⟩
  · rw [h] at h1; exact absurd h1 (by simp)
  · exact h2

theorem zoom_controller_times_eval (ctrl : CtrlState) (t : ℚ) :
    (zoom_controller ctrl t).tile_times = dequeAppend5 ctrl.tile_times t := by
  simp only [zoom_controller]
  by_cases h1 : 2 < (dequeAppend5 ctrl.tile_times t).sum / 5
  · rw [if_pos h1]
  · rw [if_neg h1]
    by_cases h3 : (dequeAppend5 ctrl.tile_times t).sum / 5 ≤ 3 / 10
    · rw [if_pos h3]
    · rw [if_neg h3]

theorem zoom_controller_tz_eval (ctrl : CtrlState) (t : ℚ) :
    (zoom_controller ctrl t).target_zoom =
      (if 2 < (dequeAppend5 ctrl.tile_times t).sum / 5 then
        (if 12 ≤ ctrl.target_zoom then ctrl.target_zoom - 1 else ctrl.target_zoom)
      else if (dequeAppend5 ctrl.tile_times t).sum / 5 ≤ 3 / 10 then
        (if ctrl.target_zoom < 18 then ctrl.target_zoom + 1 else ctrl.target_zoom)
      else ctrl.target_zoom) := by
  simp only [zoom_controller]
  by_cases h1 : 2 < (dequeAppend5 ctrl.tile_times t).sum / 5
  · rw [if_pos h1, if_pos h1]
  · rw [if_neg h1, if_neg h1]
    by_cases h3 : (dequeAppend5 ctrl.tile_times t).sum / 5 ≤ 3 / 10
    · rw [if_pos h3, if_pos h3]
    · rw [if_neg h3, if_neg h3]

theorem zoom_controller_bounds (ctrl : CtrlState) (t : ℚ)
    (h1 : 11 ≤ ctrl.target_zoom) (h2 : ctrl.target_zoom ≤ 18) :
    11 ≤ (zoom_controller ctrl t).target_zoom ∧ (zoom_controller ctrl t).target_zoom ≤ 18 := by
  constructor
  · rw [zoom_controller_tz_eval]
    split
    · split <;> omega
    · split
      · split <;> omega
      · omega
  · rw [zoom_controller_tz_eval]
    split
    · split <;> omega
    · split
      · split <;> omega
      · omega

theorem get_best_cases (env : Env) (ctrl : CtrlState) (row col : Int) (mt : String)
    (zoom : Int) (rf : Bool) (t : ℚ) :
    ((get_best env ctrl row col mt zoom rf t).emittedFetch = false ∧
      (get_best env ctrl row col mt zoom rf t).ctrl = ctrl) ∨
    ((get_best env ctrl row col mt zoom rf t).emittedFetch = true ∧
      (get_best env ctrl row col mt zoom rf t).ctrl = zoom_controller ctrl t) := by
  simp only [get_best]
  split
  · exact Or.inl ⟨rfl, rfl⟩
  · split
    · exact get_quick_cases env ctrl row col mt zoom (zoom - 2) 1 t
    · exact Or.inl ⟨rfl, rfl⟩

theorem get_deadline_cases (env : Env) (ctrl : CtrlState) (row col : Int) (mt : String)
    (zoom qz mz0 : Int) (dl : ℚ) (prio : Int) (trace : List WaitStep) (env2 : Env) (t : ℚ)
    (r : DeadlineOut)
    (h : get_deadline env ctrl row col mt zoom qz mz0 dl prio trace env2 t = some r) :
    (r.quickFetch = false ∧ r.ctrl = ctrl) ∨
    (r.quickFetch = true ∧ r.ctrl = zoom_controller ctrl t) := by
  simp only [get_deadline] at h
  by_cases hfs : env.fs (if qz = 0 then cache_file_name row col mt zoom
      else cache_file_name row col mt qz) = true
  · rw [if_pos hfs] at h
    obtain rfl := Option.some.inj h
    exact Or.inl ⟨rfl, rfl⟩
  · rw [if_neg hfs] at h
    rcases hl : deadline_loop dl trace 0
        (env.active (if qz = 0 then cache_file_name row col mt zoom
          else cache_file_name row col mt qz))
        (env.fs (if qz = 0 then cache_file_name row col mt zoom
          else cache_file_name row col mt qz)) with _ | lo
    · exact absurd h (by simp [hl])
    · simp only [hl] at h
      split at h
      · obtain rfl := Option.some.inj h
        exact Or.inl ⟨rfl, rfl⟩
      · obtain rfl := Option.some.inj h
        exact get_quick_cases env2 ctrl row col mt zoom
          (if mz0 = 0 then zoom - 3 else mz0) 1 t

theorem stepCall_cases (c : CacheCall) (ctrl : CtrlState) :
    ((stepCall c ctrl).2 = false ∧ (stepCall c ctrl).1 = ctrl) ∨
    ∃ t : ℚ, (stepCall c ctrl).2 = true ∧ (stepCall c ctrl).1 = zoom_controller ctrl t := by
  cases c with
  | quick env row col mt zoom mz0 prio t =>
    simp only [stepCall]
    rcases get_quick_cases env ctrl row col mt zoom mz0 prio t with ⟨h1, h2⟩ | ⟨h1, h2⟩
    · exact Or.inl ⟨h1, h2⟩
    · exact Or.inr ⟨t, h1, h2⟩
  | target env row col mt zoom t =>
    simp only [stepCall, get_target]
    rcases get_quick_cases env ctrl row col mt zoom
        (min zoom (max (zoom - 2) ctrl.target_zoom)) 1 t with ⟨h1, h2⟩ | ⟨h1, h2⟩
    · exact Or.inl ⟨h1, h2⟩
    · exact Or.inr ⟨t, h1, h2⟩
  | background env row col mt zoom => exact Or.inl ⟨rfl, rfl⟩
  | best env row col mt zoom rf t =>
    simp only [stepCall]
    rcases get_best_cases env ctrl row col mt zoom rf t with ⟨h1, h2⟩ | ⟨h1, h2⟩
    · exact Or.inl ⟨h1, h2⟩
    · exact Or.inr ⟨t, h1, h2⟩
  | deadline env row col mt zoom qz mz0 dl prio trace env2 t =>
    simp only [stepCall]
    rcases hd : get_deadline env ctrl row col mt zoom qz mz0 dl prio trace env2 t with _ | r
    · simp [hd]
    · simp only [hd]
      rcases get_deadline_cases env ctrl row col mt zoom qz mz0 dl prio trace env2 t r hd
          with ⟨h1, h2⟩ | ⟨h1, h2⟩
      · exact Or.inl ⟨h1, h2⟩
      · exact Or.inr ⟨t, h1, h2⟩

theorem runCalls_bounds : ∀ (cs : List CacheCall) (ctrl : CtrlState),
    11 ≤ ctrl.target_zoom → ctrl.target_zoom ≤ 18 →
    11 ≤ (runCalls cs ctrl).target_zoom ∧ (runCalls cs ctrl).target_zoom ≤ 18 := by
  intro cs
  induction cs with
  | nil => intro ctrl h1 h2; exact ⟨h1, h2⟩
  | cons c rest ih =>
    intro ctrl h1 h2
    simp only [runCalls]
    rcases stepCall_cases c ctrl with ⟨_, h⟩ | ⟨t, _, h⟩
    · rw [h]; exact ih ctrl h1 h2
    · rw [h]
      obtain ⟨b1, b2⟩ := zoom_controller_bounds ctrl t h1 h2
      exact ih _ b1 b2

theorem zoom_controller_iff (ctrl : CtrlState) (t : ℚ) :
    ((zoom_controller ctrl t).target_zoom < ctrl.target_zoom ↔
      (2 < (dequeAppend5 ctrl.tile_times t).sum / 5 ∧ 12 ≤ ctrl.target_zoom)) ∧
    ((2 < (dequeAppend5 ctrl.tile_times t).sum / 5 ∧ 12 ≤ ctrl.target_zoom) →
      (zoom_controller ctrl t).target_zoom = ctrl.target_zoom - 1) ∧
    (ctrl.target_zoom < (zoom_controller ctrl t).target_zoom ↔
      ((dequeAppend5 ctrl.tile_times t).sum / 5 ≤ 3 / 10 ∧ ctrl.target_zoom < 18)) ∧
    (((dequeAppend5 ctrl.tile_times t).sum / 5 ≤ 3 / 10 ∧ ctrl.target_zoom < 18) →
      (zoom_controller ctrl t).target_zoom = ctrl.target_zoom + 1) ∧
    (¬(2 < (dequeAppend5 ctrl.tile_times t).sum / 5 ∧ 12 ≤ ctrl.target_zoom) →
      ¬((dequeAppend5 ctrl.tile_times t).sum / 5 ≤ 3 / 10 ∧ ctrl.target_zoom < 18) →
      (zoom_controller ctrl t).target_zoom = ctrl.target_zoom) := by
  rw [zoom_controller_tz_eval]
  by_cases h1 : 2 < (dequeAppend5 ctrl.tile_times t).sum / 5
  · have hn3 : ¬((dequeAppend5 ctrl.tile_times t).sum / 5 ≤ 3 / 10) := by
      intro hc
      have h23 : (2 : ℚ) < 3 / 10 := lt_of_lt_of_le h1 hc
      norm_num at h23
    rw [if_pos h1]
    by_cases h2 : 12 ≤ ctrl.target_zoom
    · rw [if_pos h2]
      refine ⟨?_, ?_, ?_, ?_, ?_⟩ <;> simp [h1, h2, hn3] <;> omega
    · rw [if_neg h2]
      refine ⟨?_, ?_, ?_, ?_, ?_⟩ <;> simp [h1, h2, hn3] <;> omega
  · rw [if_neg h1]
    by_cases h3 : (dequeAppend5 ctrl.tile_times t).sum / 5 ≤ 3 / 10
    · rw [if_pos h3]
      by_cases h4 : ctrl.target_zoom < 18
      · rw [if_pos h4]
        refine ⟨?_, ?_, ?_, ?_, ?_⟩ <;> simp [h1, h3, h4] <;> omega
      · rw [if_neg h4]
        refine ⟨?_, ?_, ?_, ?_, ?_⟩ <;> simp [h1, h3, h4] <;> omega
    · rw [if_neg h3]
      refine ⟨?_, ?_, ?_, ?_, ?_⟩ <;> simp [h1, h3] <;> omega

theorem zoom_controller_slow_eval (ctrl : CtrlState) (t : ℚ) (times : List ℚ)
    (ht : dequeAppend5 ctrl.tile_times t = times) (h : 2 < times.sum / 5)
    (h12 : 12 ≤ ctrl.target_zoom) :
    zoom_controller ctrl t = ⟨times, ctrl.target_zoom - 1⟩ := by
  simp only [zoom_controller, ht]
  rw [if_pos h, if_pos h12]

/-! ## Claims C1, C2, C3, C6, C10 -/

/-- Claim C1 (code-bug evaluation).  The claim says every retrieval
operation returns normally and never raises.  `get_best` does swallow the
renderer's failure (second and third conjuncts), but `get_target` — i.e.
`get_quick` on its miss path — raises CPython's un-acquired-lock
`RuntimeError` whenever the `min_zoom` artifact is in the active set,
because the `tile_condition.wait()` at src line 220 runs outside the
`with self.go.tile_condition:` block that ended at line 213. -/
theorem get_target_raises_on_active_min_zoom :
    (get_target envBusy initCtrl 1 2 "BI" 16 0).result =
      Except.error CacheErr.unacquiredLockWait ∧
    (get_best envIdle initCtrl 1 2 "BI" 16 true 0).result =
      Except.ok (cache_file_name 1 2 "BI" 16) ∧
    (get_best envIdle initCtrl 1 2 "BI" 16 true 0).swallowedError = true := by
  refine ⟨by decide, rfl, rfl⟩

/-- Five identical completed `get_quick` misses taking 100 seconds each. -/
def slowCalls : List CacheCall :=
  [.quick envIdle 1 2 "BI" 16 0 1 100, .quick envIdle 1 2 "BI" 16 0 1 100,
   .quick envIdle 1 2 "BI" 16 0 1 100, .quick envIdle 1 2 "BI" 16 0 1 100,
   .quick envIdle 1 2 "BI" 16 0 1 100]

/-- Claim C2 counterexample: five completed `get_quick` misses of 100 s
each drive Target Zoom from 16 down to 11, which is outside `[12, 18]` —
the decrement guard in the source is `target_zoom >= 12`, so 12 is not a
floor. -/
theorem targetZoom_escapes_twelve :
    (runCalls slowCalls initCtrl).target_zoom = 11 ∧
    ¬ (12 ≤ (runCalls slowCalls initCtrl).target_zoom) := by
  have hstep : ∀ ctrl : CtrlState,
      stepCall (.quick envIdle 1 2 "BI" 16 0 1 100) ctrl = (zoom_controller ctrl 100, true) :=
    fun ctrl => rfl
  have h1 : zoom_controller initCtrl 100 = ⟨[100], 15⟩ :=
    zoom_controller_slow_eval initCtrl 100 [100] rfl
      (by norm_num [List.sum_cons, List.sum_nil]) (by decide)
  have h2 : zoom_controller ⟨[100], 15⟩ 100 = ⟨[100, 100], 14⟩ :=
    zoom_controller_slow_eval ⟨[100], 15⟩ 100 [100, 100] rfl
      (by norm_num [List.sum_cons, List.sum_nil]) (by decide)
  have h3 : zoom_controller ⟨[100, 100], 14⟩ 100 = ⟨[100, 100, 100], 13⟩ :=
    zoom_controller_slow_eval ⟨[100, 100], 14⟩ 100 [100, 100, 100] rfl
      (by norm_num [List.sum_cons, List.sum_nil]) (by decide)
  have h4 : zoom_controller ⟨[100, 100, 100], 13⟩ 100 = ⟨[100, 100, 100, 100], 12⟩ :=
    zoom_controller_slow_eval ⟨[100, 100, 100], 13⟩ 100 [100, 100, 100, 100] rfl
      (by norm_num [List.sum_cons, List.sum_nil]) (by decide)
  have h5 : zoom_controller ⟨[100, 100, 100, 100], 12⟩ 100 =
      ⟨[100, 100, 100, 100, 100], 11⟩ :=
    zoom_controller_slow_eval ⟨[100, 100, 100, 100], 12⟩ 100 [100, 100, 100, 100, 100] rfl
      (by norm_num [List.sum_cons, List.sum_nil]) (by decide)
  have hrun : runCalls slowCalls initCtrl = ⟨[100, 100, 100, 100, 100], 11⟩ := by
    simp only [slowCalls, runCalls, hstep]
    rw [h1, h2, h3, h4, h5]
  rw [hrun]
  exact ⟨rfl, by decide⟩

/-- Claim C2 (amended): Target Zoom starts at 16, stays in `[11, 18]` for
every sequence of cache operations (the source's decrement guard
`target_zoom >= 12` lets it reach 11, not 12), and a call that completes
no `get_quick` fetch leaves it unchanged. -/
theorem targetZoom_clamp_eleven_eighteen :
    initCtrl.target_zoom = 16 ∧
    (∀ cs : List CacheCall, 11 ≤ (runCalls cs initCtrl).target_zoom ∧
      (runCalls cs initCtrl).target_zoom ≤ 18) ∧
    (∀ (c : CacheCall) (ctrl : CtrlState), (stepCall c ctrl).2 = false →
      (stepCall c ctrl).1.target_zoom = ctrl.target_zoom) := by
  refine ⟨rfl, ?_, ?_⟩
  · intro cs
    exact runCalls_bounds cs initCtrl (by decide) (by decide)
  · intro c ctrl h
    rcases stepCall_cases c ctrl with ⟨_, h2⟩ | ⟨t, h1, _⟩
    · rw [h2]
    · rw [h] at h1
      exact absurd h1 (by simp)

/-- Witness for the amended C2 theorem at concrete inputs. -/
theorem targetZoom_clamp_witness :
    (stepCall (.background envHit 1 2 "BI" 16) initCtrl).2 = false ∧
    (stepCall (.background envHit 1 2 "BI" 16) initCtrl).1.target_zoom =
      initCtrl.target_zoom ∧
    11 ≤ (runCalls slowCalls initCtrl).target_zoom :=
  ⟨rfl, targetZoom_clamp_eleven_eighteen.2.2 (.background envHit 1 2 "BI" 16) initCtrl rfl,
    (targetZoom_clamp_eleven_eighteen.2.1 slowCalls).1⟩

/-- Claim C3 counterexample: a fetch-emitting `get_quick` with Target Zoom
exactly 12 and a slow window still decrements (12 → 11), although the
claim's guard `Target Zoom ≥ 13` is false — the source tests
`target_zoom >= 12`. -/
theorem controller_decrements_at_twelve :
    (get_quick envIdle ⟨[], 12⟩ 1 2 "BI" 16 0 1 100).emittedFetch = true ∧
    (get_quick envIdle ⟨[], 12⟩ 1 2 "BI" 16 0 1 100).ctrl.target_zoom = 11 := by
  constructor
  · rfl
  · have h : (get_quick envIdle ⟨[], 12⟩ 1 2 "BI" 16 0 1 100).ctrl =
        zoom_controller ⟨[], 12⟩ 100 := rfl
    rw [h, zoom_controller_slow_eval ⟨[], 12⟩ 100 [100] rfl
      (by norm_num [List.sum_cons, List.sum_nil]) (by decide)]
    decide

/-- Claim C3 (amended): after every `get_quick` call that emitted a fetch,
Target Zoom decrements (by one) iff `sum(window)/5 > 2` and Target Zoom
`≥ 12` (the source's guard — the claim said `≥ 13`), increments (by one)
iff `sum(window)/5 ≤ 0.3` and Target Zoom `< 18`, and is otherwise
unchanged. -/
theorem controller_step_iff (env : Env) (ctrl : CtrlState) (row col : Int) (mt : String)
    (zoom mz0 prio : Int) (t : ℚ)
    (h : (get_quick env ctrl row col mt zoom mz0 prio t).emittedFetch = true) :
    ((get_quick env ctrl row col mt zoom mz0 prio t).ctrl.target_zoom < ctrl.target_zoom ↔
      (2 < (dequeAppend5 ctrl.tile_times t).sum / 5 ∧ 12 ≤ ctrl.target_zoom)) ∧
    ((2 < (dequeAppend5 ctrl.tile_times t).sum / 5 ∧ 12 ≤ ctrl.target_zoom) →
      (get_quick env ctrl row col mt zoom mz0 prio t).ctrl.target_zoom =
        ctrl.target_zoom - 1) ∧
    (ctrl.target_zoom < (get_quick env ctrl row col mt zoom mz0 prio t).ctrl.target_zoom ↔
      ((dequeAppend5 ctrl.tile_times t).sum / 5 ≤ 3 / 10 ∧ ctrl.target_zoom < 18)) ∧
    (((dequeAppend5 ctrl.tile_times t).sum / 5 ≤ 3 / 10 ∧ ctrl.target_zoom < 18) →
      (get_quick env ctrl row col mt zoom mz0 prio t).ctrl.target_zoom =
        ctrl.target_zoom + 1) ∧
    (¬(2 < (dequeAppend5 ctrl.tile_times t).sum / 5 ∧ 12 ≤ ctrl.target_zoom) →
      ¬((dequeAppend5 ctrl.tile_times t).sum / 5 ≤ 3 / 10 ∧ ctrl.target_zoom < 18) →
      (get_quick env ctrl row col mt zoom mz0 prio t).ctrl.target_zoom =
        ctrl.target_zoom) := by
  rw [get_quick_fetch_ctrl env ctrl row col mt zoom mz0 prio t h]
  exact zoom_controller_iff ctrl t

/-- Witness for the amended C3 theorem at concrete inputs. -/
theorem controller_step_iff_witness :
    (get_quick envIdle initCtrl 1 2 "BI" 16 0 1 100).emittedFetch = true ∧
    ((get_quick envIdle initCtrl 1 2 "BI" 16 0 1 100).ctrl.target_zoom <
        initCtrl.target_zoom ↔
      (2 < (dequeAppend5 initCtrl.tile_times 100).sum / 5 ∧ 12 ≤ initCtrl.target_zoom)) :=
  ⟨rfl, (controller_step_iff envIdle initCtrl 1 2 "BI" 16 0 1 100 rfl).1⟩

/-- Claim C10: whenever `get_quick` returns via a cache hit found during
its zoom walk, it makes no renderer call and leaves the whole controller
state (Tile Time Window and Target Zoom) unchanged. -/
theorem get_quick_hit_frame (env : Env) (ctrl : CtrlState) (row col : Int) (mt : String)
    (zoom mz0 prio : Int) (t : ℚ) (cf : String)
    (hw : zoom_walk env row col mt zoom
      (zoom + 1 - (if mz0 = 0 then zoom - 3 else mz0)).toNat = some cf) :
    get_quick env ctrl row col mt zoom mz0 prio t = ⟨.ok cf, ctrl, [], false⟩ := by
  simp only [get_quick, hw]

/-- Witness for the C10 theorem at concrete inputs. -/
theorem get_quick_hit_frame_witness :
    zoom_walk envHit 1 2 "BI" 16
        (((16 : Int) + 1 - (if (0 : Int) = 0 then 16 - 3 else 0)).toNat) =
      some (cache_file_name 1 2 "BI" 16) ∧
    get_quick envHit initCtrl 1 2 "BI" 16 0 1 0 =
      ⟨.ok (cache_file_name 1 2 "BI" 16), initCtrl, [], false⟩ :=
  ⟨rfl, get_quick_hit_frame envHit initCtrl 1 2 "BI" 16 0 1 0
    (cache_file_name 1 2 "BI" 16) rfl⟩

/-- Claim C6 counterexample: with every level active and no artifact on
disk, no level hits, yet `get_quick` does not emit a fetch at `min_zoom`
and does not return the `min_zoom` artifact path — it raises the
un-acquired-lock error instead. -/
theorem get_quick_error_all_active :
    (get_quick envBusy initCtrl 3 4 "BI" 16 0 1 0).result =
      Except.error CacheErr.unacquiredLockWait ∧
    (get_quick envBusy initCtrl 3 4 "BI" 16 0 1 0).emittedFetch = false ∧
    (get_quick envBusy initCtrl 3 4 "BI" 16 0 1 0).calls = [] := by
  refine ⟨by decide, rfl, rfl⟩

/-- Claim C6 (amended): the zoom walk runs strictly from `zoom` down to
`min_zoom` (default `zoom - 3`), skipping active levels, and a hit is the
highest-zoom non-active existing artifact, with no renderer call; on a
full miss, *provided the `min_zoom` path is not in the active set*,
`get_quick` emits exactly one fetch at `min_zoom` whose output file did
not exist (never overwriting) and returns the `min_zoom` artifact path.
(When the `min_zoom` path is active at that point the call instead raises,
see the counterexample.) -/
theorem get_quick_walk_behavior (env : Env) (ctrl : CtrlState) (row col : Int) (mt : String)
    (zoom mz0 prio : Int) (t : ℚ) (mz : Int) (n : Nat)
    (hmz : mz = (if mz0 = 0 then zoom - 3 else mz0))
    (hn : n = (zoom + 1 - mz).toNat) :
    (∀ cf, zoom_walk env row col mt zoom n = some cf →
      (get_quick env ctrl row col mt zoom mz0 prio t).result = .ok cf ∧
      (get_quick env ctrl row col mt zoom mz0 prio t).calls = [] ∧
      ∃ k : Nat, k < n ∧ cf = cache_file_name row col mt (zoom - (k : Int)) ∧
        env.active (cache_file_name row col mt (zoom - (k : Int))) = false ∧
        env.fs (cache_file_name row col mt (zoom - (k : Int))) = true ∧
        ∀ j : Nat, j < k →
          env.active (cache_file_name row col mt (zoom - (j : Int))) = true ∨
          env.fs (cache_file_name row col mt (zoom - (j : Int))) = false) ∧
    (zoom_walk env row col mt zoom n = none →
      env.active (cache_file_name row col mt mz) = false →
      mz ≤ zoom →
      (get_quick env ctrl row col mt zoom mz0 prio t).result =
        .ok (cache_file_name row col mt mz) ∧
      (get_quick env ctrl row col mt zoom mz0 prio t).emittedFetch = true ∧
      (get_quick env ctrl row col mt zoom mz0 prio t).calls =
        [⟨col, row, zoom, mz, mt, cache_file_name row col mt mz, prio⟩] ∧
      env.fs (cache_file_name row col mt mz) = false) := by
  have hq : get_quick env ctrl row col mt zoom mz0 prio t =
      (match zoom_walk env row col mt zoom n with
       | some cf => ⟨.ok cf, ctrl, [], false⟩
       | none =>
         if env.active (cache_file_name row col mt mz) then
           ⟨.error .unacquiredLockWait, ctrl, [], false⟩
         else
           ⟨.ok (cache_file_name row col mt mz), zoom_controller ctrl t,
             [⟨col, row, zoom, mz, mt, cache_file_name row col mt mz, prio⟩], true⟩) := by
    rw [hn, hmz]
    rfl
  constructor
  · intro cf hw
    rw [hq, hw]
    exact ⟨rfl, rfl, zoom_walk_some env row col mt n zoom cf hw⟩
  · intro hw hact hle
    have hn1 : 1 ≤ n := by rw [hn]; omega
    have key : zoom - ((n - 1 : Nat) : Int) = mz := by rw [hn]; omega
    have hfs : env.fs (cache_file_name row col mt mz) = false := by
      rcases zoom_walk_none env row col mt n zoom hw (n - 1) (by omega) with ha | hf
      · rw [key] at ha
        rw [hact] at ha
        exact absurd ha (by simp)
      · rwa [key] at hf
    rw [hq, hw]
    rw [if_neg (by simp [hact])]
    exact ⟨rfl, rfl, rfl, hfs⟩

/-- Witness for the amended C6 theorem at concrete inputs. -/
theorem get_quick_walk_behavior_witness :
    (13 : Int) ≤ 16 ∧
    ((get_quick envIdle initCtrl 5 6 "BI" 16 0 1 0).result =
        .ok (cache_file_name 5 6 "BI" 13) ∧
      (get_quick envIdle initCtrl 5 6 "BI" 16 0 1 0).emittedFetch = true ∧
      (get_quick envIdle initCtrl 5 6 "BI" 16 0 1 0).calls =
        [⟨6, 5, 16, 13, "BI", cache_file_name 5 6 "BI" 13, 1⟩] ∧
      envIdle.fs (cache_file_name 5 6 "BI" 13) = false) :=
  ⟨by decide,
    (get_quick_walk_behavior envIdle initCtrl 5 6 "BI" 16 0 1 0 13 4
      (by decide) (by decide)).2 rfl rfl (by decide)⟩

/-! ## Claims C4 and C5: the deadline wait loop -/

theorem deadline_loop_timeouts : ∀ (trace : List WaitStep) (dl elapsed : ℚ)
    (act exi : Bool) (lo : LoopOut),
    deadline_loop dl trace elapsed act exi = some lo →
    ∀ x ∈ lo.timeouts, x = dl := by
  intro trace
  induction trace with
  | nil =>
    intro dl elapsed act exi lo h x hx
    simp only [deadline_loop] at h
    by_cases hc : act = false ∧ exi = true
    · rw [if_pos hc] at h
      obtain rfl := Option.some.inj h
      simp at hx
    · rw [if_neg hc] at h
      exact absurd h (by simp)
  | cons w rest ih =>
    intro dl elapsed act exi lo h x hx
    simp only [deadline_loop] at h
    by_cases hc : act = false ∧ exi = true
    · rw [if_pos hc] at h
      obtain rfl := Option.some.inj h
      simp at hx
    · rw [if_neg hc] at h
      by_cases hb : dl < elapsed + w.dur
      · rw [if_pos hb] at h
        obtain rfl := Option.some.inj h
        simpa using hx
      · rw [if_neg hb] at h
        rcases hrec : deadline_loop dl rest (elapsed + w.dur) w.activeAfter w.existsAfter
            with _ | lo'
        · exact absurd h (by simp [hrec])
        · simp only [hrec] at h
          obtain rfl := Option.some.inj h
          rcases (by simpa using hx : x = dl ∨ x ∈ lo'.timeouts) with h1 | h2
          · exact h1
          · exact ih dl (elapsed + w.dur) w.activeAfter w.existsAfter lo' hrec x h2

theorem deadline_loop_waits_le : ∀ (trace : List WaitStep) (dl elapsed : ℚ)
    (act exi : Bool) (lo : LoopOut),
    0 ≤ elapsed → elapsed ≤ dl → (∀ w ∈ trace, 0 ≤ w.dur ∧ w.dur ≤ dl) →
    deadline_loop dl trace elapsed act exi = some lo →
    lo.waits.sum + elapsed ≤ 2 * dl := by
  intro trace
  induction trace with
  | nil =>
    intro dl elapsed act exi lo h0 hE _ h
    simp only [deadline_loop] at h
    by_cases hc : act = false ∧ exi = true
    · rw [if_pos hc] at h
      obtain rfl := Option.some.inj h
      simp only [List.sum_nil, zero_add]
      linarith
    · rw [if_neg hc] at h
      exact absurd h (by simp)
  | cons w rest ih =>
    intro dl elapsed act exi lo h0 hE hW h
    simp only [deadline_loop] at h
    by_cases hc : act = false ∧ exi = true
    · rw [if_pos hc] at h
      obtain rfl := Option.some.inj h
      simp only [List.sum_nil, zero_add]
      linarith
    · rw [if_neg hc] at h
      have hd := hW w (by simp)
      by_cases hb : dl < elapsed + w.dur
      · rw [if_pos hb] at h
        obtain rfl := Option.some.inj h
        simp only [List.sum_cons, List.sum_nil, add_zero]
        linarith [hd.2]
      · rw [if_neg hb] at h
        rcases hrec : deadline_loop dl rest (elapsed + w.dur) w.activeAfter w.existsAfter
            with _ | lo'
        · exact absurd h (by simp [hrec])
        · simp only [hrec] at h
          obtain rfl := Option.some.inj h
          have hb2 : elapsed + w.dur ≤ dl := not_lt.mp hb
          have hrec2 := ih dl (elapsed + w.dur) w.activeAfter w.existsAfter lo'
            (by linarith [hd.1]) hb2 (fun x hx2 => hW x (by simp [hx2])) hrec
          simp only [List.sum_cons]
          linarith

/-- Claim C5 counterexample: with deadline `D = 1`, a first wait of 0.9 s
(loop condition still true) and a second wait of 1 s, both waits pass the
timeout argument `1` — the full deadline, not the remaining 0.1 s — and
the total time spent waiting is 1.9 s `> D`. -/
def waitTraceC5 : List WaitStep := [⟨9 / 10, false, false⟩, ⟨1, false, true⟩]

theorem deadline_wait_exceeds :
    (get_deadline envIdle initCtrl 1 2 "BI" 16 0 0 1 5 waitTraceC5 envIdle 0).map
      DeadlineOut.waits = some [9 / 10, 1] ∧
    (get_deadline envIdle initCtrl 1 2 "BI" 16 0 0 1 5 waitTraceC5 envIdle 0).map
      DeadlineOut.timeouts = some [1, 1] ∧
    ¬ ((9 / 10 + 1 : ℚ) ≤ 1) ∧
    (1 : ℚ) - 9 / 10 ≠ 1 := by
  have hl : deadline_loop 1 waitTraceC5 0 false false = some ⟨true, true, [9 / 10, 1], [1, 1]⟩ := by
    norm_num [waitTraceC5, deadline_loop]
  have hgd : get_deadline envIdle initCtrl 1 2 "BI" 16 0 0 1 5 waitTraceC5 envIdle 0 =
      some ⟨(get_quick envIdle initCtrl 1 2 "BI" 16 13 1 0).result,
        (get_quick envIdle initCtrl 1 2 "BI" 16 13 1 0).ctrl, true, true, true,
        [9 / 10, 1], [1, 1], true,
        (get_quick envIdle initCtrl 1 2 "BI" 16 13 1 0).emittedFetch⟩ := by
    simp only [get_deadline, envIdle, hl]
    norm_num
  rw [hgd]
  refine ⟨rfl, rfl, by norm_num, by norm_num⟩

/-- Claim C5 (amended): every individual wait of `get_deadline` passes the
*full* deadline `D` as the timeout (not the remaining deadline), and —
assuming each wait returns within its timeout — the total time spent
waiting on the condition is at most `2·D` (it can exceed `D`, see the
counterexample). -/
theorem deadline_wait_double_bound (env : Env) (ctrl : CtrlState) (row col : Int)
    (mt : String) (zoom qz mz0 : Int) (dl : ℚ) (prio : Int) (trace : List WaitStep)
    (env2 : Env) (t : ℚ) (r : DeadlineOut)
    (hdl : 0 ≤ dl) (hW : ∀ w ∈ trace, 0 ≤ w.dur ∧ w.dur ≤ dl)
    (h : get_deadline env ctrl row col mt zoom qz mz0 dl prio trace env2 t = some r) :
    (∀ x ∈ r.timeouts, x = dl) ∧ r.waits.sum ≤ 2 * dl := by
  simp only [get_deadline] at h
  by_cases hfs : env.fs (if qz = 0 then cache_file_name row col mt zoom
      else cache_file_name row col mt qz) = true
  · rw [if_pos hfs] at h
    obtain rfl := Option.some.inj h
    constructor
    · intro x hx
      simp at hx
    · simp only [List.sum_nil]
      linarith
  · rw [if_neg hfs] at h
    rcases hl : deadline_loop dl trace 0
        (env.active (if qz = 0 then cache_file_name row col mt zoom
          else cache_file_name row col mt qz))
        (env.fs (if qz = 0 then cache_file_name row col mt zoom
          else cache_file_name row col mt qz)) with _ | lo
    · exact absurd h (by simp [hl])
    · simp only [hl] at h
      have ht := deadline_loop_timeouts trace dl 0 _ _ lo hl
      have hs := deadline_loop_waits_le trace dl 0 _ _ lo le_rfl hdl hW hl
      split at h
      · obtain rfl := Option.some.inj h
        exact ⟨ht, by linarith⟩
      · obtain rfl := Option.some.inj h
        exact ⟨ht, by linarith⟩

/-- Witness for the amended C5 theorem at concrete inputs. -/
theorem deadline_wait_double_bound_witness :
    (0 : ℚ) ≤ 1 ∧
    ((⟨.ok (cache_file_name 1 2 "BI" 16), initCtrl, false, false, true, [], [], false,
        false⟩ : DeadlineOut).waits.sum ≤ 2 * 1) :=
  ⟨by norm_num,
    (deadline_wait_double_bound envHit initCtrl 1 2 "BI" 16 0 0 1 5 [] envHit 0
      ⟨.ok (cache_file_name 1 2 "BI" 16), initCtrl, false, false, true, [], [], false, false⟩
      (by norm_num) (by simp) rfl).2⟩

/-- Claim C4: `get_deadline` targets the artifact at `quick_zoom` if
nonzero else `zoom`; if it exists it is returned immediately with nothing
enqueued and no waiting; otherwise the background fetch is enqueued and,
after the wait loop, the call returns the target path directly iff the
artifact exists at exit and the deadline was not breached, and in every
other case returns exactly what
`get_quick(row, col, maptype, zoom, min_zoom = min_zoom or zoom-3)`
returns (result and controller state alike). -/
theorem get_deadline_behavior (env : Env) (ctrl : CtrlState) (row col : Int) (mt : String)
    (zoom qz mz0 : Int) (dl : ℚ) (prio : Int) (trace : List WaitStep) (env2 : Env) (t : ℚ)
    (r : DeadlineOut) (cf : String) (mz : Int)
    (hcf : cf = (if qz = 0 then cache_file_name row col mt zoom
      else cache_file_name row col mt qz))
    (hmz : mz = (if mz0 = 0 then zoom - 3 else mz0))
    (h : get_deadline env ctrl row col mt zoom qz mz0 dl prio trace env2 t = some r) :
    (env.fs cf = true →
      r = ⟨.ok cf, ctrl, false, false, true, [], [], false, false⟩) ∧
    (env.fs cf = false →
      r.bgEnqueued = true ∧
      (r.existsAtExit = true ∧ r.reached = false →
        r.result = .ok cf ∧ r.fellThrough = false ∧ r.ctrl = ctrl) ∧
      (¬(r.existsAtExit = true ∧ r.reached = false) →
        r.fellThrough = true ∧
        r.result = (get_quick env2 ctrl row col mt zoom mz 1 t).result ∧
        r.ctrl = (get_quick env2 ctrl row col mt zoom mz 1 t).ctrl)) := by
  subst hcf hmz
  simp only [get_deadline] at h
  by_cases hfs : env.fs (if qz = 0 then cache_file_name row col mt zoom
      else cache_file_name row col mt qz) = true
  · rw [if_pos hfs] at h
    obtain rfl := Option.some.inj h
    constructor
    · intro _
      rfl
    · intro hff
      rw [hfs] at hff
      exact absurd hff (by simp)
  · rw [if_neg hfs] at h
    rcases hl : deadline_loop dl trace 0
        (env.active (if qz = 0 then cache_file_name row col mt zoom
          else cache_file_name row col mt qz))
        (env.fs (if qz = 0 then cache_file_name row col mt zoom
          else cache_file_name row col mt qz)) with _ | lo
    · exact absurd h (by simp [hl])
    · simp only [hl] at h
      by_cases hcond : lo.existsAtExit = true ∧ lo.reached = false
      · rw [if_pos hcond] at h
        obtain rfl := Option.some.inj h
        refine ⟨fun hff => absurd hff hfs, fun _ => ⟨rfl, fun _ => ⟨rfl, rfl, rfl⟩, ?_⟩⟩
        intro hn
        exact (hn hcond).elim
      · rw [if_neg hcond] at h
        obtain rfl := Option.some.inj h
        refine ⟨fun hff => absurd hff hfs, fun _ => ⟨rfl, ?_, fun _ => ⟨rfl, rfl, rfl⟩⟩⟩
        intro hc
        exact (hcond hc).elim

/-- Witness for the C4 theorem at concrete inputs (the early-hit case). -/
theorem get_deadline_behavior_witness :
    envHit.fs (cache_file_name 1 2 "BI" 16) = true ∧
    (⟨.ok (cache_file_name 1 2 "BI" 16), initCtrl, false, false, true, [], [], false,
        false⟩ : DeadlineOut) =
      ⟨.ok (cache_file_name 1 2 "BI" 16), initCtrl, false, false, true, [], [], false,
        false⟩ :=
  ⟨rfl,
    (get_deadline_behavior envHit initCtrl 1 2 "BI" 16 0 0 1 5 [] envHit 0
      ⟨.ok (cache_file_name 1 2 "BI" 16), initCtrl, false, false, true, [], [], false, false⟩
      (cache_file_name 1 2 "BI" 16) 13 rfl (by decide) rfl).1 rfl⟩

/-! ## Claim C7: background idempotence -/

theorem getBackgroundK_fixed (st : BgKeyState) (h : st.active = true ∨ st.present = true) :
    getBackgroundK st = st := by
  rcases h with h | h
  · unfold getBackgroundK get_background_tile
    by_cases hp : st.present = true
    · rw [if_pos hp]
    · rw [if_neg hp, if_pos h]
  · unfold getBackgroundK
    rw [if_pos h]

/-- Claim C7: `get_background(K)` is idempotent and non-blocking — if the
artifact for K exists the call is a no-op (first conjunct), repeated calls
made while K is active or present enqueue nothing further (second
conjunct), and any number of repeated calls from any state enqueues
background work at most once (third conjunct). -/
theorem getBackground_idempotent :
    (∀ st : BgKeyState, st.present = true → getBackgroundK st = st) ∧
    (∀ (st : BgKeyState) (n : Nat), (st.active = true ∨ st.present = true) →
      (getBackgroundK^[n] st).enqueues = st.enqueues) ∧
    (∀ (st : BgKeyState) (n : Nat), (getBackgroundK^[n] st).enqueues ≤ st.enqueues + 1) := by
  refine ⟨?_, ?_, ?_⟩
  · intro st h
    exact getBackgroundK_fixed st (Or.inr h)
  · intro st n h
    rw [Function.iterate_fixed (getBackgroundK_fixed st h) n]
  · intro st n
    by_cases h : st.active = true ∨ st.present = true
    · rw [Function.iterate_fixed (getBackgroundK_fixed st h) n]
      omega
    · have ha : st.active = false := by
        cases hA : st.active
        · rfl
        · exact absurd (Or.inl hA) h
      have hp : st.present = false := by
        cases hP : st.present
        · rfl
        · exact absurd (Or.inr hP) h
      cases n with
      | zero => simp
      | succ n =>
        rw [Function.iterate_succ_apply]
        have hstep : getBackgroundK st = ⟨st.present, true, st.enqueues + 1⟩ := by
          unfold getBackgroundK get_background_tile
          rw [if_neg (by simp [hp]), if_neg (by simp [ha])]
        rw [hstep,
          Function.iterate_fixed (getBackgroundK_fixed ⟨st.present, true, st.enqueues + 1⟩
            (Or.inl rfl)) n]

/-- Witness for the C7 theorem at concrete inputs. -/
theorem getBackground_idempotent_witness :
    ((⟨false, true, 0⟩ : BgKeyState).active = true ∨
      (⟨false, true, 0⟩ : BgKeyState).present = true) ∧
    (getBackgroundK^[3] (⟨false, true, 0⟩ : BgKeyState)).enqueues =
      (⟨false, true, 0⟩ : BgKeyState).enqueues :=
  ⟨Or.inl rfl, getBackground_idempotent.2.1 ⟨false, true, 0⟩ 3 (Or.inl rfl)⟩

/-! ## Claim C8: the ZL sentinel -/

/-- Claim C8 counterexample: for a path whose parsed maptype is `"ZL"`,
`getattr` indeed skips resolution and records nothing in the Path Map —
but precisely because nothing was recorded, `open` on the same path misses
`path_dict` and falls back to `cache.get_quick`, triggering cache
resolution.  The claim says neither `getattr` nor `open` triggers any. -/
theorem open_dds_resolves_ZL :
    (getattr_dds [] "root" "/a/1_2_ZL16.dds" (some ⟨1, 2, "ZL", 16⟩) "artifact").policyCalled
      = false ∧
    (getattr_dds [] "root" "/a/1_2_ZL16.dds" (some ⟨1, 2, "ZL", 16⟩) "artifact").path_dict
      = [] ∧
    (open_dds envHit initCtrl [] "root" "/a/1_2_ZL16.dds"
      (some ⟨1, 2, "ZL", 16⟩) 0).quickCalled = true := by
  refine ⟨rfl, rfl, rfl⟩

/-- Claim C8 (amended): on `getattr`, a parsed maptype of `"ZL"` skips
resolution — the path is a passthrough and the Path Map is untouched; on
`open`, however, there is no ZL check: any DDS path absent from the Path
Map (as every ZL path is, since `getattr` never records one) falls back to
`cache.get_quick` and does trigger cache resolution. -/
theorem zl_getattr_skip_open_fallback :
    (∀ (pd : List (String × String)) (root path art : String) (k : DdsKey),
      k.maptype = "ZL" →
      getattr_dds pd root path (some k) art = ⟨full_path root path, pd, false⟩) ∧
    (∀ (env : Env) (ctrl : CtrlState) (pd : List (String × String)) (root path : String)
      (k : DdsKey) (t : ℚ),
      List.lookup path pd = none →
      (open_dds env ctrl pd root path (some k) t).quickCalled = true) := by
  constructor
  · intro pd root path art k hk
    simp only [getattr_dds]
    rw [if_neg (by simp [hk])]
  · intro env ctrl pd root path k t hl
    simp only [open_dds, hl]
    split <;> rfl

/-- Witness for the amended C8 theorem at concrete inputs. -/
theorem zl_getattr_witness :
    (⟨3, 4, "ZL", 16⟩ : DdsKey).maptype = "ZL" ∧
    getattr_dds [] "r" "/p/3_4_ZL16.dds" (some ⟨3, 4, "ZL", 16⟩) "a" =
      ⟨full_path "r" "/p/3_4_ZL16.dds", [], false⟩ ∧
    List.lookup "/p/3_4_ZL16.dds" ([] : List (String × String)) = none ∧
    (open_dds envIdle initCtrl [] "r" "/p/3_4_ZL16.dds"
      (some ⟨3, 4, "ZL", 16⟩) 0).quickCalled = true :=
  ⟨rfl,
    zl_getattr_skip_open_fallback.1 [] "r" "/p/3_4_ZL16.dds" "a" ⟨3, 4, "ZL", 16⟩ rfl,
    rfl,
    zl_getattr_skip_open_fallback.2 envIdle initCtrl [] "r" "/p/3_4_ZL16.dds"
      ⟨3, 4, "ZL", 16⟩ 0 rfl⟩

/-! ## Claim C9: DSF chunking and prefetch priority -/

theorem chunksOfAux_join (cs : Nat) (hcs : 0 < cs) :
    ∀ (fuel : Nat) (l : List α), l.length ≤ fuel → (chunksOfAux cs fuel l).flatten = l := by
  intro fuel
  induction fuel with
  | zero =>
    intro l hl
    have h0 : l = [] := List.length_eq_zero.mp (Nat.le_zero.mp hl)
    subst h0
    rfl
  | succ fuel ih =>
    intro l hl
    cases l with
    | nil => rfl
    | cons a l' =>
      rw [show chunksOfAux cs (fuel + 1) (a :: l') =
        (a :: l').take cs :: chunksOfAux cs fuel ((a :: l').drop cs) from rfl]
      rw [List.flatten_cons]
      rw [ih ((a :: l').drop cs) (by
        rw [List.length_drop]
        simp only [List.length_cons] at hl ⊢
        omega)]
      exact List.take_append_drop cs (a :: l')

theorem chunksOfAux_mem (cs : Nat) (hcs : 0 < cs) :
    ∀ (fuel : Nat) (l : List α) (c : List α), l.length ≤ fuel →
      c ∈ chunksOfAux cs fuel l → 0 < c.length ∧ c.length ≤ cs := by
  intro fuel
  induction fuel with
  | zero =>
    intro l c _ hc
    simp [chunksOfAux] at hc
  | succ fuel ih =>
    intro l c hl hc
    cases l with
    | nil => simp [chunksOfAux] at hc
    | cons a l' =>
      rw [show chunksOfAux cs (fuel + 1) (a :: l') =
        (a :: l').take cs :: chunksOfAux cs fuel ((a :: l').drop cs) from rfl] at hc
      rcases List.mem_cons.mp hc with h | h
      · subst h
        constructor
        · simp only [List.length_take, List.length_cons]
          omega
        · simp only [List.length_take]
          omega
      · refine ih ((a :: l').drop cs) c ?_ h
        rw [List.length_drop]
        simp only [List.length_cons] at hl ⊢
        omega

/-- Claim C9 counterexample: 9 deduplicated DDS paths are split into 9
chunks, not 8 (`chunk_size = int(9/8) = 1`), and a worker running without
`extra_fast` requests a size-0 DDS with the default priority 1, not
priority 0. -/
theorem dsf_chunks_not_eight :
    Except.map List.length (dsfChunked (List.range 9)) = .ok 9 ∧
    (ddsEntryReq false ⟨some ⟨1, 2, "BI", 16⟩, true, 0⟩).map QuickReq.priority = some 1 ∧
    (1 : Int) ≠ 0 ∧ (9 : Nat) ≠ 8 := by
  refine ⟨by decide, rfl, by decide, by decide⟩

/-- Claim C9 (amended): for `n < 8` DDS paths the chunking raises (slice
step 0); for `n ≥ 8` it produces contiguous chunks of size at most
`⌊n/8⌋`, all nonempty, concatenating back to the input, and there are *at
least* 8 of them (exactly 8 only when the sizes work out); one worker is
dispatched per chunk; a worker calls `get_quick` for every matched entry
whose file has size 0, with priority 0 if `extra_fast` and the default
priority 1 otherwise. -/
theorem dsf_chunking_behavior :
    (∀ (l : List DdsEntry), l.length < 8 → dsfChunked l = .error .sliceStepZero) ∧
    (∀ (l : List DdsEntry), 8 ≤ l.length →
      (dsfChunked l).isOk = true ∧
      ∀ chunks, dsfChunked l = .ok chunks →
        chunks.flatten = l ∧
        8 ≤ chunks.length ∧
        (∀ c ∈ chunks, 0 < c.length ∧ c.length ≤ l.length / 8)) ∧
    (∀ (ef : Bool) (e : DdsEntry) (k : DdsKey),
      e.key = some k → (if e.preExists then e.preSize else 0) = 0 →
      ddsEntryReq ef e = some ⟨k.row, k.col, k.maptype, k.zoom, if ef then 0 else 1⟩) ∧
    (∀ (ef : Bool) (chunks : List (List DdsEntry)),
      (dsfDispatch ef chunks).length = chunks.length) := by
  refine ⟨?_, ?_, ?_, ?_⟩
  · intro l h
    simp only [dsfChunked]
    rw [if_pos (Nat.div_eq_of_lt h)]
  · intro l h
    have hcs : 0 < l.length / 8 := Nat.div_pos h (by norm_num)
    constructor
    · simp only [dsfChunked]
      rw [if_neg (by omega)]
      rfl
    · intro chunks hch
      simp only [dsfChunked] at hch
      rw [if_neg (by omega)] at hch
      obtain rfl := Except.ok.inj hch
      have hjoin := chunksOfAux_join (l.length / 8) hcs l.length l le_rfl
      refine ⟨hjoin, ?_, fun c hc => chunksOfAux_mem (l.length / 8) hcs l.length l c le_rfl hc⟩
      have h1 : l.length = ((chunksOfAux (l.length / 8) l.length l).map List.length).sum := by
        conv_lhs => rw [← hjoin]
        exact List.length_flatten _
      have hb : ∀ x ∈ (chunksOfAux (l.length / 8) l.length l).map List.length,
          x ≤ l.length / 8 := by
        intro x hx
        obtain ⟨c, hc, rfl⟩ := List.mem_map.mp hx
        exact (chunksOfAux_mem (l.length / 8) hcs l.length l c le_rfl hc).2
      have h2 := List.sum_le_card_nsmul _ _ hb
      rw [smul_eq_mul, List.length_map] at h2
      have h3 : 8 * (l.length / 8) ≤ l.length := by
        have := Nat.div_mul_le_self l.length 8
        omega
      have h5 : l.length ≤ (chunksOfAux (l.length / 8) l.length l).length * (l.length / 8) :=
        le_trans (le_of_eq h1) h2
      exact Nat.le_of_mul_le_mul_right (le_trans h3 h5) hcs
  · intro ef e k hk hs
    simp only [ddsEntryReq, hk]
    rw [if_pos hs]
  · intro ef chunks
    simp [dsfDispatch]

/-- Witness for the amended C9 theorem at concrete inputs: eight entries
give (at least) eight chunks. -/
theorem dsf_chunking_witness :
    8 ≤ (List.replicate 8 (⟨none, false, 0⟩ : DdsEntry)).length ∧
    8 ≤ (List.replicate 8 [(⟨none, false, 0⟩ : DdsEntry)]).length :=
  ⟨by decide,
    ((dsf_chunking_behavior.2.1 (List.replicate 8 ⟨none, false, 0⟩) (by decide)).2
      (List.replicate 8 [⟨none, false, 0⟩]) (by rfl)).2.1⟩
